import Mathlib

/-!
Verification of the fishbowl permission-mediation core against its
natural-language specification.  The definitions below are a shallow
embedding of the TypeScript sources (src/rules.ts, src/config.ts,
src/queue.ts, src/proxy.ts, src/git-sync.ts, src/packages.ts,
src/server.ts): pure functions become Lean functions and the stateful
permission queue becomes explicit state passing over a `QueueState`
record together with an event trace.
-/

namespace Fishbowl

/-- Category — the closed set of mediation buckets (src/types.ts). -/
inductive Category where
  | network
  | filesystem
  | git
  | packages
  | sandbox
  | exec
deriving DecidableEq, Repr

/-- ApprovalMode — per-category policy (src/types.ts). -/
inductive ApprovalMode where
  | approveEach
  | approveBulk
  | allowAll
  | denyAll
deriving DecidableEq, Repr

/-- RequestStatus of a permission request (src/types.ts). -/
inductive RequestStatus where
  | pending
  | approved
  | denied
deriving DecidableEq, Repr

/-- Who resolved a request (src/types.ts, `resolvedBy`). -/
inductive ResolvedBy where
  | cli
  | web
  | auto
deriving DecidableEq, Repr

/-- RuleSet — the allow/deny rule lists of the sandbox config (src/types.ts). -/
structure RuleSet where
  allow : List String
  deny : List String
deriving DecidableEq, Repr

/-- ParsedRule (src/rules.ts). -/
structure ParsedRule where
  category : Category
  pattern : String
deriving DecidableEq, Repr

/-- Decode a category name string, mirroring the `VALID_CATEGORIES` set
membership test of src/rules.ts (six valid names). -/
def categoryOfString (s : String) : Option Category :=
  if s = "network" then some .network
  else if s = "filesystem" then some .filesystem
  else if s = "git" then some .git
  else if s = "packages" then some .packages
  else if s = "sandbox" then some .sandbox
  else if s = "exec" then some .exec
  else none

/-- Embedding of `parseRule` (src/rules.ts).  `category(pattern)` with a
non-empty pattern, or a bare `category` which parses with pattern `*`;
unknown categories are rejected.  A trailing `)` after the opening paren
is stripped, exactly as `rule.slice` does in the source. -/
def parseRule (rule : String) : Option ParsedRule :=
  if rule.toList.contains '(' then
    -- parenIdx is the first '(' in the string
    let category := String.mk (rule.toList.takeWhile (· ≠ '('))
    match categoryOfString category with
    | none => none
    | some c =>
      let afterParen := (rule.toList.dropWhile (· ≠ '(')).drop 1
      let patternChars :=
        if afterParen.getLast? = some ')' then afterParen.dropLast else afterParen
      if patternChars.isEmpty then none
      else some { category := c, pattern := String.mk patternChars }
  else
    match categoryOfString rule with
    | none => none
    | some c => some { category := c, pattern := "*" }

/-- Shell-glob matcher over character lists: after the regex translation in
`matchPattern` (src/rules.ts) every character of the pattern is literal
except `*`, and a run of `*` matches any run of characters (the source
rewrites `\x2a+` to `.*` and anchors the regex with `^` and `$`). -/
def globChars : List Char → List Char → Bool
  | [], t => t.isEmpty
  | p :: ps, t =>
    if p = '*' then (t.tails).any (fun suffix => globChars ps suffix)
    else
      match t with
      | [] => false
      | c :: ts => p = c && globChars ps ts

/-- Embedding of `matchPattern` (src/rules.ts).  The filesystem category
dispatches to Bun.Glob, an external path-aware glob library that is not
part of this repository; it is abstracted as the parameter `fsGlob`
(pattern, then target).  The `*` fast path and the shell-glob fallback are
translated from the source. -/
def matchPattern (fsGlob : String → String → Bool)
    (pattern target : String) (category : Category) : Bool :=
  if pattern = "*" then true
  else if category = .filesystem then fsGlob pattern target
  else globChars pattern.toList target.toList

/-- RuleVerdict — the non-null verdicts of the rules engine; the engine
returns `Option RuleVerdict` with `none` standing for the source's null. -/
inductive RuleVerdict where
  | allow
  | deny
deriving DecidableEq, Repr

/-- Scan of the deny-rule list of `evaluateRules` (src/rules.ts): skip
unparseable rules and rules of another category, stop at the first rule
whose pattern matches the target. -/
def denyScan (fsGlob : String → String → Bool) (category : Category)
    (matchTarget : String) : List String → Bool
  | [] => false
  | rule :: rest =>
    match parseRule rule with
    | none => denyScan fsGlob category matchTarget rest
    | some parsed =>
      if parsed.category ≠ category then denyScan fsGlob category matchTarget rest
      else if matchPattern fsGlob parsed.pattern matchTarget category then true
      else denyScan fsGlob category matchTarget rest

/-- Scan of the allow-rule list of `evaluateRules` (src/rules.ts): like the
deny scan, but additionally skip any allow rule whose category is exec or
packages and whose pattern is `*` (the blanket-allow safety check). -/
def allowScan (fsGlob : String → String → Bool) (category : Category)
    (matchTarget : String) : List String → Bool
  | [] => false
  | rule :: rest =>
    match parseRule rule with
    | none => allowScan fsGlob category matchTarget rest
    | some parsed =>
      if parsed.category ≠ category then allowScan fsGlob category matchTarget rest
      else if (parsed.category = .exec ∨ parsed.category = .packages) ∧ parsed.pattern = "*" then
        allowScan fsGlob category matchTarget rest
      else if matchPattern fsGlob parsed.pattern matchTarget category then true
      else allowScan fsGlob category matchTarget rest

/-- Embedding of `evaluateRules` (src/rules.ts): deny rules are checked
first, then allow rules, `none` when neither bucket matches. -/
def evaluateRules (fsGlob : String → String → Bool) (rules : RuleSet)
    (category : Category) (matchTarget : String) : Option RuleVerdict :=
  if denyScan fsGlob category matchTarget rules.deny then some .deny
  else if allowScan fsGlob category matchTarget rules.allow then some .allow
  else none

/-- Decision of a single deny rule inside the scan of `evaluateRules`:
the rule parses, is of the request's category, and its pattern matches. -/
def denyRuleHits (fsGlob : String → String → Bool) (category : Category)
    (matchTarget : String) (rule : String) : Bool :=
  match parseRule rule with
  | none => false
  | some parsed =>
    parsed.category = category && matchPattern fsGlob parsed.pattern matchTarget category

/-- A blanket allow rule for a hardened category: it parses to exec or
packages with pattern `*` (this includes the bare rule strings `exec`
and `packages`). -/
def blanketHardenedAllow (rule : String) : Bool :=
  match parseRule rule with
  | none => false
  | some parsed =>
    (parsed.category = .exec || parsed.category = .packages) && parsed.pattern = "*"

lemma denyScan_eq_any (fsGlob : String → String → Bool) (category : Category)
    (matchTarget : String) (l : List String) :
    denyScan fsGlob category matchTarget l =
      l.any (denyRuleHits fsGlob category matchTarget) := by
  induction l with
  | nil => rfl
  | cons rule rest ih =>
    simp only [denyScan, List.any_cons, denyRuleHits]
    cases hp : parseRule rule with
    | none => simpa using ih
    | some parsed =>
      by_cases hc : parsed.category = category
      · by_cases hm : matchPattern fsGlob parsed.pattern matchTarget category
        · simp [hc, hm]
        · simp [hc, hm, ih]
      · simp [hc, ih]

lemma blanketHardenedAllow_eq_true {rule : String} {parsed : ParsedRule}
    (hp : parseRule rule = some parsed)
    (hb : (parsed.category = .exec ∨ parsed.category = .packages) ∧ parsed.pattern = "*") :
    blanketHardenedAllow rule = true := by
  simp only [blanketHardenedAllow, hp, Bool.and_eq_true, Bool.or_eq_true, decide_eq_true_eq]
  exact ⟨hb.1, hb.2⟩

lemma blanketHardenedAllow_eq_false {rule : String} {parsed : ParsedRule}
    (hp : parseRule rule = some parsed)
    (hb : ¬ ((parsed.category = .exec ∨ parsed.category = .packages) ∧ parsed.pattern = "*")) :
    blanketHardenedAllow rule = false := by
  simp only [blanketHardenedAllow, hp]
  by_contra h
  rw [Bool.not_eq_false] at h
  simp only [Bool.and_eq_true, Bool.or_eq_true, decide_eq_true_eq] at h
  exact hb ⟨h.1, h.2⟩

lemma allowScan_eq_any (fsGlob : String → String → Bool) (category : Category)
    (matchTarget : String) (l : List String) :
    allowScan fsGlob category matchTarget l =
      l.any (fun r => denyRuleHits fsGlob category matchTarget r && !blanketHardenedAllow r) := by
  induction l with
  | nil => rfl
  | cons rule rest ih =>
    rw [List.any_cons]
    cases hp : parseRule rule with
    | none =>
      have hhead : (denyRuleHits fsGlob category matchTarget rule
          && !blanketHardenedAllow rule) = false := by
        simp [denyRuleHits, hp]
      simp only [allowScan, hp]
      rw [ih, hhead, Bool.false_or]
    | some parsed =>
      by_cases hc : parsed.category = category
      · by_cases hb : (parsed.category = .exec ∨ parsed.category = .packages) ∧ parsed.pattern = "*"
        · have hhead : (denyRuleHits fsGlob category matchTarget rule
              && !blanketHardenedAllow rule) = false := by
            simp [blanketHardenedAllow_eq_true hp hb]
          simp only [allowScan, hp]
          rw [if_neg (by simp [hc]), if_pos hb, ih, hhead, Bool.false_or]
        · have hblank := blanketHardenedAllow_eq_false hp hb
          by_cases hm : matchPattern fsGlob parsed.pattern matchTarget category = true
          · have hhead : (denyRuleHits fsGlob category matchTarget rule
                && !blanketHardenedAllow rule) = true := by
              simp [denyRuleHits, hp, hc, hm, hblank]
            simp only [allowScan, hp]
            rw [if_neg (by simp [hc]), if_neg hb, if_pos hm, hhead, Bool.true_or]
          · have hhead : (denyRuleHits fsGlob category matchTarget rule
                && !blanketHardenedAllow rule) = false := by
              simp [denyRuleHits, hp, hm]
            simp only [allowScan, hp]
            rw [if_neg (by simp [hc]), if_neg hb, if_neg hm, ih, hhead, Bool.false_or]
      · have hhead : (denyRuleHits fsGlob category matchTarget rule
            && !blanketHardenedAllow rule) = false := by
          simp [denyRuleHits, hp, hc]
        simp only [allowScan, hp]
        rw [if_pos (by simp [hc]), ih, hhead, Bool.false_or]

lemma allowScan_filter (fsGlob : String → String → Bool) (category : Category)
    (matchTarget : String) (l : List String) :
    allowScan fsGlob category matchTarget (l.filter (fun r => !blanketHardenedAllow r)) =
      allowScan fsGlob category matchTarget l := by
  rw [allowScan_eq_any, allowScan_eq_any]
  induction l with
  | nil => rfl
  | cons rule rest ih =>
    cases hb : blanketHardenedAllow rule with
    | true => simp [List.filter_cons, hb, ih]
    | false => simp [List.filter_cons, hb, ih]

/-- C5.  The rules engine checks deny rules first: the verdict is deny
exactly when some deny rule of the category matches (scanning in insertion
order, first hit wins — for the pure verdict this is equivalent to the
existence of a hit); otherwise it is allow exactly when some allow rule
matches that is not an exec/packages blanket rule; otherwise null.
Removing every exec(*)/packages(*) allow rule (bare `exec` and `packages`
included, as the parse equations state) never changes the verdict, so
evaluate never returns allow on account of such a rule. -/
theorem c5_evaluateRules_deny_first_and_hardened_allow_skip
    (fsGlob : String → String → Bool) (rules : RuleSet) (category : Category)
    (matchTarget : String) :
    (evaluateRules fsGlob rules category matchTarget =
      if rules.deny.any (denyRuleHits fsGlob category matchTarget) then some .deny
      else if rules.allow.any
          (fun r => denyRuleHits fsGlob category matchTarget r && !blanketHardenedAllow r) then
        some .allow
      else none)
    ∧ evaluateRules fsGlob
        { allow := rules.allow.filter (fun r => !blanketHardenedAllow r), deny := rules.deny }
        category matchTarget =
      evaluateRules fsGlob rules category matchTarget
    ∧ parseRule "exec" = some { category := .exec, pattern := "*" }
    ∧ parseRule "packages" = some { category := .packages, pattern := "*" }
    ∧ blanketHardenedAllow "exec(*)" = true
    ∧ blanketHardenedAllow "packages(*)" = true := by
  refine ⟨?_, ?_, by decide, by decide, by decide, by decide⟩
  · rw [evaluateRules, denyScan_eq_any, allowScan_eq_any]
  · rw [evaluateRules, evaluateRules, allowScan_filter]

/-- C9.  The universal pattern `*` matches every target in every category
(the early return fires before the filesystem dispatch, so the path-aware
matcher — which otherwise treats `*` as a single segment — is never
consulted: the result does not depend on `fsGlob` at all), a bare rule
string parses with pattern `*`, and consequently a bare `filesystem` allow
rule matches the multi-segment path `a/b/c`. -/
theorem c9_star_matches_everything_and_bare_rule
    (fsGlob : String → String → Bool) (target : String) (category : Category) :
    matchPattern fsGlob "*" target category = true
    ∧ parseRule "filesystem" = some { category := .filesystem, pattern := "*" }
    ∧ evaluateRules fsGlob { allow := ["filesystem"], deny := [] } .filesystem "a/b/c" =
        some .allow := by
  refine ⟨by simp [matchPattern], by decide, ?_⟩
  have hparse : parseRule "filesystem" = some { category := .filesystem, pattern := "*" } := by
    decide
  simp [evaluateRules, denyScan, allowScan, hparse, matchPattern]

/-! Package broker (src/packages.ts). -/

/-- SAFE_FLAGS — the flag whitelist of src/packages.ts. -/
def SAFE_FLAGS : List String :=
  ["-D", "--dev", "--save-dev", "-E", "--exact", "-g", "--global", "--save", "--save-exact"]

/-- True when the argument begins with a dash, as `arg.startsWith("-")`
tests in src/packages.ts. -/
def startsWithDash (s : String) : Bool :=
  match s.toList with
  | '-' :: _ => true
  | _ => false

/-- Tokenizer for `command.trim().split(/\s+/)` (src/packages.ts):
maximal runs of non-whitespace characters, in order.  For all-whitespace
input the JavaScript expression yields a single empty token where this
yields no token; both fall below the two-token minimum that
`parsePackageCommand` requires, so the difference is unobservable. -/
def wordsAux : List Char → List Char → List String
  | [], acc => if acc.isEmpty then [] else [String.mk acc.reverse]
  | c :: cs, acc =>
    if c.isWhitespace then
      if acc.isEmpty then wordsAux cs []
      else String.mk acc.reverse :: wordsAux cs []
    else wordsAux cs (c :: acc)

/-- Whitespace split of a command line. -/
def splitWhitespace (s : String) : List String := wordsAux s.toList []

/-- ParsedPackageCommand (src/packages.ts); the action field holds one of
the literal strings install, add, remove. -/
structure ParsedPackageCommand where
  manager : String
  action : String
  packages : List String
  flags : List String
deriving DecidableEq, Repr

/-- Embedding of `splitArgs` (src/packages.ts): arguments beginning with a
dash are kept only when whitelisted in SAFE_FLAGS (unsafe flags are
silently dropped); everything else is a package name. -/
def splitArgs : List String → List String × List String
  | [] => ([], [])
  | arg :: rest =>
    let pf := splitArgs rest
    if startsWithDash arg then
      if SAFE_FLAGS.contains arg then (pf.1, arg :: pf.2) else (pf.1, pf.2)
    else (arg :: pf.1, pf.2)

/-- Embedding of `parsePackageCommand` (src/packages.ts).  Recognizes
bun add/remove, npm install/i/uninstall, pip and pip3 install/uninstall
(both reported with manager pip), cargo add/remove; requires at least one
package argument. -/
def parsePackageCommand (command : String) : Option ParsedPackageCommand :=
  match splitWhitespace command with
  | bin :: sub :: rest =>
    if bin = "bun" ∧ (sub = "add" ∨ sub = "remove") then
      let pf := splitArgs rest
      if pf.1.isEmpty then none
      else some { manager := "bun", action := if sub = "remove" then "remove" else "add",
                  packages := pf.1, flags := pf.2 }
    else if bin = "npm" ∧ (sub = "install" ∨ sub = "i" ∨ sub = "uninstall") then
      let pf := splitArgs rest
      if pf.1.isEmpty then none
      else some { manager := "npm", action := if sub = "uninstall" then "remove" else "install",
                  packages := pf.1, flags := pf.2 }
    else if (bin = "pip" ∨ bin = "pip3") ∧ (sub = "install" ∨ sub = "uninstall") then
      let pf := splitArgs rest
      if pf.1.isEmpty then none
      else some { manager := "pip", action := if sub = "uninstall" then "remove" else "install",
                  packages := pf.1, flags := pf.2 }
    else if bin = "cargo" ∧ (sub = "add" ∨ sub = "remove") then
      let pf := splitArgs rest
      if pf.1.isEmpty then none
      else some { manager := "cargo", action := if sub = "remove" then "remove" else "add",
                  packages := pf.1, flags := pf.2 }
    else none
  | _ => none

/-- Embedding of `buildCommand` (src/packages.ts): known managers get a
normalized install/uninstall or add/remove verb, any other manager keeps
the action verbatim; then flags, then packages, joined with spaces. -/
def buildCommand (manager action : String) (packages flags : List String) : String :=
  let verb :=
    if manager = "bun" then (if action = "remove" then "remove" else "add")
    else if manager = "npm" then (if action = "remove" then "uninstall" else "install")
    else if manager = "pip" ∨ manager = "pip3" then
      (if action = "remove" then "uninstall" else "install")
    else if manager = "cargo" then (if action = "remove" then "remove" else "add")
    else action
  String.intercalate " " (manager :: verb :: (flags ++ packages))

/-- Argv of the subprocess spawned by `runPackageCommand` (src/packages.ts):
the command string is run through a shell as Bun.spawn with sh -c. -/
def runPackageArgv (command : String) : List String := ["sh", "-c", command]

/-- Rule-match target built by `submitPackageRequest` (src/packages.ts). -/
def pkgMatchTarget (manager action : String) (packages : List String) : String :=
  manager ++ " " ++ action ++ " " ++ String.intercalate " " packages

/-- The three-branch outcome of `submitPackageRequest` (src/packages.ts):
rule deny → denied record; rule allow → run at once; null verdict → queue
a packages request and run on approval.  The argv field records the
subprocess invocation that runs (or would run on approval). -/
inductive PkgPlan where
  | deniedByRule
  | runNow (argv : List String)
  | queuedThenRun (queueMatchTarget : String) (argv : List String)
deriving DecidableEq, Repr

/-- Decision dataflow of `submitPackageRequest` (src/packages.ts).  Note
the source calls buildCommand without the flags argument, so the executed
command carries no flags. -/
def submitPackagePlan (fsGlob : String → String → Bool) (rules : RuleSet)
    (manager : String) (packages : List String) (action : String) : PkgPlan :=
  let matchTarget := pkgMatchTarget manager action packages
  match evaluateRules fsGlob rules .packages matchTarget with
  | some .deny => .deniedByRule
  | some .allow => .runNow (runPackageArgv (buildCommand manager action packages []))
  | none => .queuedThenRun matchTarget (runPackageArgv (buildCommand manager action packages []))

lemma splitArgs_spec (args : List String) :
    (splitArgs args).1 = args.filter (fun a => !startsWithDash a)
    ∧ (splitArgs args).2 = args.filter (fun a => startsWithDash a && SAFE_FLAGS.contains a) := by
  induction args with
  | nil => exact ⟨rfl, rfl⟩
  | cons arg rest ih =>
    by_cases hd : startsWithDash arg = true
    · by_cases hs : SAFE_FLAGS.contains arg = true
      · have hm : arg ∈ SAFE_FLAGS := by simpa using hs
        constructor
        · simp [splitArgs, hd, hs, hm, List.filter_cons, ih.1]
        · simp [splitArgs, hd, hs, hm, List.filter_cons, ih.2]
      · have hm : arg ∉ SAFE_FLAGS := by simpa using hs
        constructor
        · simp [splitArgs, hd, hs, hm, List.filter_cons, ih.1]
        · simp [splitArgs, hd, hs, hm, List.filter_cons, ih.2]
    · constructor
      · simp [splitArgs, hd, List.filter_cons, ih.1]
      · simp [splitArgs, hd, List.filter_cons, ih.2]

lemma pkgFlags_safe (rest : List String) : ∀ f ∈ (splitArgs rest).2, f ∈ SAFE_FLAGS := by
  intro f hf
  rw [(splitArgs_spec rest).2] at hf
  have := List.of_mem_filter hf
  simpa using (Bool.and_eq_true _ _ |>.mp this).2

lemma pkgBranch (m a : String) (rest : List String) (p : ParsedPackageCommand)
    (h : (if (splitArgs rest).1.isEmpty = true then none
          else some { manager := m, action := a,
                      packages := (splitArgs rest).1, flags := (splitArgs rest).2 }) = some p) :
    p.packages ≠ [] ∧ ∀ f ∈ p.flags, f ∈ SAFE_FLAGS := by
  rcases hne : (splitArgs rest).1 with _ | ⟨x, xs⟩
  · rw [hne] at h; simp at h
  · rw [hne] at h
    simp only [List.isEmpty_cons, Bool.false_eq_true, if_false, Option.some.injEq] at h
    subst h
    exact ⟨by simp, pkgFlags_safe rest⟩

lemma parsePackageCommand_sound (command : String) (p : ParsedPackageCommand)
    (h : parsePackageCommand command = some p) :
    p.packages ≠ [] ∧ ∀ f ∈ p.flags, f ∈ SAFE_FLAGS := by
  unfold parsePackageCommand at h
  rcases hsp : splitWhitespace command with _ | ⟨bin, _ | ⟨sub, rest⟩⟩ <;> rw [hsp] at h
  · exact absurd h (by simp)
  · exact absurd h (by simp)
  · dsimp only at h
    by_cases h1 : bin = "bun" ∧ (sub = "add" ∨ sub = "remove")
    · rw [if_pos h1] at h; exact pkgBranch _ _ rest p h
    rw [if_neg h1] at h
    by_cases h2 : bin = "npm" ∧ (sub = "install" ∨ sub = "i" ∨ sub = "uninstall")
    · rw [if_pos h2] at h; exact pkgBranch _ _ rest p h
    rw [if_neg h2] at h
    by_cases h3 : (bin = "pip" ∨ bin = "pip3") ∧ (sub = "install" ∨ sub = "uninstall")
    · rw [if_pos h3] at h; exact pkgBranch _ _ rest p h
    rw [if_neg h3] at h
    by_cases h4 : bin = "cargo" ∧ (sub = "add" ∨ sub = "remove")
    · rw [if_pos h4] at h; exact pkgBranch _ _ rest p h
    rw [if_neg h4] at h
    exact absurd h (by simp)

/-- C8.  `parsePackageCommand` keeps only whitelisted flags: the flag list
of `splitArgs` is exactly the whitelisted dash arguments and the package
list is exactly the non-dash arguments (every other dash argument is
silently dropped); a parsed command always has a non-empty package list
and flags drawn from SAFE_FLAGS, and the command with the unsafe
`--registry=evil.com` flag parses to npm/install/express with no flags. -/
theorem c8_parsePackageCommand_flag_whitelist :
    (∀ args : List String,
      (splitArgs args).1 = args.filter (fun a => !startsWithDash a)
      ∧ (splitArgs args).2 = args.filter (fun a => startsWithDash a && SAFE_FLAGS.contains a))
    ∧ (∀ command p, parsePackageCommand command = some p →
        p.packages ≠ [] ∧ ∀ f ∈ p.flags, f ∈ SAFE_FLAGS)
    ∧ parsePackageCommand "npm install --registry=evil.com express" =
        some { manager := "npm", action := "install", packages := ["express"], flags := [] } :=
  ⟨splitArgs_spec, parsePackageCommand_sound, by decide⟩

/-- Witness for C8 at a concrete parsed command. -/
theorem c8_parsePackageCommand_flag_whitelist_witness :
    parsePackageCommand "bun add -D left-pad" =
      some { manager := "bun", action := "add", packages := ["left-pad"], flags := ["-D"] }
    ∧ (["left-pad"] ≠ ([] : List String) ∧ ∀ f ∈ ["-D"], f ∈ SAFE_FLAGS) := by
  refine ⟨by decide, ?_⟩
  have h := c8_parsePackageCommand_flag_whitelist.2.1 "bun add -D left-pad"
    { manager := "bun", action := "add", packages := ["left-pad"], flags := ["-D"] } (by decide)
  exact h

/-- C10.  `buildCommand` does not validate the manager: for a manager
outside the known set the action is kept verbatim (no install/uninstall
normalization) and the command is the space-joined manager, action, flags,
packages; and for a null rule verdict `submitPackageRequest` queues the
request and, on approval, executes that very string (built without flags)
through `sh -c`. -/
theorem c10_unknown_manager_verbatim (manager action : String)
    (packages flags : List String)
    (h : manager ∉ ["bun", "npm", "pip", "pip3", "cargo"]) :
    buildCommand manager action packages flags =
      String.intercalate " " (manager :: action :: (flags ++ packages))
    ∧ ∀ (fsGlob : String → String → Bool) (rules : RuleSet),
        evaluateRules fsGlob rules .packages (pkgMatchTarget manager action packages) = none →
        submitPackagePlan fsGlob rules manager packages action =
          .queuedThenRun (pkgMatchTarget manager action packages)
            ["sh", "-c", String.intercalate " " (manager :: action :: packages)] := by
  simp only [List.mem_cons, List.not_mem_nil, or_false, not_or] at h
  obtain ⟨h1, h2, h3, h4, h5⟩ := h
  have hbuild : ∀ fl : List String, buildCommand manager action packages fl =
      String.intercalate " " (manager :: action :: (fl ++ packages)) := by
    intro fl
    simp [buildCommand, h1, h2, h3, h4, h5]
  refine ⟨hbuild flags, fun fsGlob rules hnull => ?_⟩
  simp [submitPackagePlan, hnull, runPackageArgv, hbuild []]

/-- Witness for C10 at a concrete unknown manager. -/
theorem c10_unknown_manager_verbatim_witness :
    buildCommand "evilmgr" "pwn" ["x"] ["-f"] =
      String.intercalate " " ("evilmgr" :: "pwn" :: (["-f"] ++ ["x"]))
    ∧ submitPackagePlan (fun _ _ => false) { allow := [], deny := [] } "evilmgr" ["x"] "pwn" =
        .queuedThenRun (pkgMatchTarget "evilmgr" "pwn" ["x"])
          ["sh", "-c", String.intercalate " " ("evilmgr" :: "pwn" :: ["x"])] := by
  have h := c10_unknown_manager_verbatim "evilmgr" "pwn" ["x"] ["-f"] (by decide)
  exact ⟨h.1, h.2 (fun _ _ => false) { allow := [], deny := [] } (by decide)⟩

/-! Permission queue (src/queue.ts).  The class state (requests map,
waiters map, counter) becomes a record; the JavaScript Map's insertion
order is modelled by lists; promise resolvers become waiter ids whose
signalling is recorded in the event trace. -/

/-- Metadata bag of a permission request; of the open key-value bag only
`targetFile` is inspected by the code under verification, so only that
key is carried. -/
structure Metadata where
  targetFile : Option String
deriving DecidableEq, Repr

/-- PermissionRequest record (src/types.ts); ids `req-N` are modelled by
their numeric counter value N. -/
structure PermissionRequest where
  id : Nat
  category : Category
  action : String
  description : String
  reason : Option String
  status : RequestStatus
  metadata : Option Metadata
  createdAt : Nat
  resolvedAt : Option Nat
  resolvedBy : Option ResolvedBy
deriving DecidableEq, Repr

/-- The status argument of `resolve` (the "approved" | "denied" union). -/
inductive Decision where
  | approved
  | denied
deriving DecidableEq, Repr

/-- RequestStatus written by `resolve` for a decision. -/
def statusOfDecision : Decision → RequestStatus
  | .approved => .approved
  | .denied => .denied

/-- Observable effects of queue operations: the two EventEmitter channels,
the signalling of a waiter promise, and an append to the audit log (in
the event vocabulary so a trace can state whether resolution writes an
audit entry). -/
inductive QEvent where
  | requestEvent (r : PermissionRequest)
  | resolveEvent (r : PermissionRequest)
  | waiterSignal (id : Nat) (approved : Bool)
  | auditAppend (id : Nat)
deriving DecidableEq, Repr

/-- State of a PermissionQueue instance (src/queue.ts). -/
structure QueueState where
  requests : List PermissionRequest
  waiters : List Nat
  counter : Nat
deriving DecidableEq, Repr

/-- The empty queue, as constructed by `new PermissionQueue()`. -/
def QueueState.empty : QueueState := { requests := [], waiters := [], counter := 0 }

/-- Embedding of `PermissionQueue.request` (src/queue.ts): mint the next
id, store a pending record, schedule persistence, emit the request event,
register a waiter.  The source performs no scan of existing pending
requests. -/
def QueueState.request (s : QueueState) (category : Category)
    (action description : String) (reason : Option String)
    (metadata : Option Metadata) (now : Nat) :
    Nat × QueueState × List QEvent :=
  let id := s.counter
  let req : PermissionRequest :=
    { id := id, category := category, action := action, description := description,
      reason := reason, status := .pending, metadata := metadata, createdAt := now,
      resolvedAt := none, resolvedBy := none }
  (id,
   { requests := s.requests ++ [req], waiters := s.waiters ++ [id], counter := s.counter + 1 },
   [.requestEvent req])

/-- Embedding of `PermissionQueue.resolve` (src/queue.ts): only a pending
request resolves; on success set status, resolvedAt, resolvedBy, emit the
resolve event and, when a waiter exists, signal it with `status ==
approved` and delete it.  Returns false with no effect otherwise. -/
def QueueState.resolve (s : QueueState) (id : Nat) (decision : Decision)
    (resolvedBy : Option ResolvedBy) (now : Nat) :
    Bool × QueueState × List QEvent :=
  match s.requests.find? (fun r => r.id == id) with
  | none => (false, s, [])
  | some req =>
    if req.status ≠ .pending then (false, s, [])
    else
      let req' := { req with status := statusOfDecision decision,
                             resolvedAt := some now, resolvedBy := resolvedBy }
      let requests' := s.requests.map (fun r => if r.id == id then req' else r)
      if s.waiters.contains id then
        (true,
         { requests := requests', waiters := s.waiters.filter (fun w => w ≠ id),
           counter := s.counter },
         [.resolveEvent req', .waiterSignal id (decision = .approved)])
      else
        (true,
         { requests := requests', waiters := s.waiters, counter := s.counter },
         [.resolveEvent req'])

/-- Embedding of `PermissionQueue.pending` (src/queue.ts). -/
def QueueState.pendingReqs (s : QueueState) : List PermissionRequest :=
  s.requests.filter (fun r => r.status == .pending)

lemma statusOfDecision_ne_pending (d : Decision) : statusOfDecision d ≠ .pending := by
  cases d <;> simp [statusOfDecision]

lemma find?_map_update (l : List PermissionRequest) (id : Nat) (req req' : PermissionRequest)
    (hid : req'.id = req.id)
    (hfind : l.find? (fun r => r.id == id) = some req) :
    (l.map (fun r => if r.id == id then req' else r)).find? (fun r => r.id == id) =
      some req' := by
  induction l with
  | nil => simp at hfind
  | cons a l ih =>
    cases ha : (a.id == id) with
    | true =>
      have hfind' : some a = some req := by
        rw [List.find?_cons, ha] at hfind
        exact hfind
      injection hfind' with heq
      subst heq
      have hpred : (req'.id == id) = true := by rw [hid]; exact ha
      rw [List.map_cons, if_pos ha, List.find?_cons, hpred]
    | false =>
      have hfind' : l.find? (fun r => r.id == id) = some req := by
        rw [List.find?_cons, ha] at hfind
        exact hfind
      have hrec := ih hfind'
      rw [List.map_cons, if_neg (by simp [ha]), List.find?_cons, ha]
      exact hrec

lemma resolve_noop_of_nonpending (s : QueueState) (id : Nat) (d : Decision)
    (rb : Option ResolvedBy) (now : Nat)
    (h : ∀ r ∈ s.requests, r.id = id → r.status ≠ .pending) :
    s.resolve id d rb now = (false, s, []) := by
  unfold QueueState.resolve
  cases hf : s.requests.find? (fun r => r.id == id) with
  | none => rfl
  | some req =>
    have hmem := List.mem_of_find?_eq_some hf
    have hpred : (req.id == id) = true := (List.find?_eq_some.mp hf).1
    have hnp : req.status ≠ .pending := h req hmem (by simpa using hpred)
    simp [hnp]

lemma resolve_twice (s : QueueState) (id : Nat) (d₁ : Decision) (b₁ : Option ResolvedBy)
    (n₁ : Nat) (s' : QueueState) (evs : List QEvent)
    (h : s.resolve id d₁ b₁ n₁ = (true, s', evs))
    (d₂ : Decision) (b₂ : Option ResolvedBy) (n₂ : Nat) :
    s'.resolve id d₂ b₂ n₂ = (false, s', []) := by
  unfold QueueState.resolve at h
  cases hf : s.requests.find? (fun r => r.id == id) with
  | none => rw [hf] at h; simp at h
  | some req =>
    rw [hf] at h
    by_cases hp : req.status = .pending
    · simp only [hp, ne_eq, not_true_eq_false, if_false] at h
      have hfind' := find?_map_update s.requests id req
        { req with status := statusOfDecision d₁, resolvedAt := some n₁, resolvedBy := b₁ }
        rfl hf
      by_cases hw : s.waiters.contains id = true
      · rw [if_pos hw] at h
        injection h with h1 h23
        injection h23 with h2 h3
        subst h2
        unfold QueueState.resolve
        rw [hfind']
        simp [statusOfDecision_ne_pending]
      · rw [if_neg hw] at h
        injection h with h1 h23
        injection h23 with h2 h3
        subst h2
        unfold QueueState.resolve
        rw [hfind']
        simp [statusOfDecision_ne_pending]
    · simp [hp] at h

/-- C7.  Resolving an id that is absent or not pending returns false with
no side effects (state and event trace unchanged), and in particular a
second resolve on the same id after a successful one returns false and
changes nothing. -/
theorem c7_resolve_nonpending_is_noop (s : QueueState) (id : Nat) :
    (∀ (d : Decision) (rb : Option ResolvedBy) (now : Nat),
      (∀ r ∈ s.requests, r.id = id → r.status ≠ .pending) →
      s.resolve id d rb now = (false, s, []))
    ∧ (∀ (d₁ : Decision) (b₁ : Option ResolvedBy) (n₁ : Nat) (s' : QueueState)
        (evs : List QEvent),
        s.resolve id d₁ b₁ n₁ = (true, s', evs) →
        ∀ (d₂ : Decision) (b₂ : Option ResolvedBy) (n₂ : Nat),
          s'.resolve id d₂ b₂ n₂ = (false, s', [])) :=
  ⟨fun d rb now h => resolve_noop_of_nonpending s id d rb now h,
   fun d₁ b₁ n₁ s' evs h d₂ b₂ n₂ => resolve_twice s id d₁ b₁ n₁ s' evs h d₂ b₂ n₂⟩

/-- Fixture: a single pending network request, as after one `request`
call on a fresh queue. -/
def fixtureReq : PermissionRequest :=
  { id := 0, category := .network, action := "GET http://example.com", description := "t",
    reason := none, status := .pending, metadata := none, createdAt := 1,
    resolvedAt := none, resolvedBy := none }

/-- Fixture: queue holding `fixtureReq` with its waiter registered. -/
def fixtureQueue : QueueState := { requests := [fixtureReq], waiters := [0], counter := 1 }

/-- Witness for C7: on the one-request fixture, resolving an absent id is
a no-op, and a second resolve of an already approved id is a no-op. -/
theorem c7_resolve_nonpending_is_noop_witness :
    fixtureQueue.resolve 5 .approved (some .web) 2 = (false, fixtureQueue, [])
    ∧ (fixtureQueue.resolve 0 .approved (some .web) 2).2.1.resolve 0 .denied (some .cli) 3 =
        (false, (fixtureQueue.resolve 0 .approved (some .web) 2).2.1, []) := by
  constructor
  · exact (c7_resolve_nonpending_is_noop fixtureQueue 5).1 .approved (some .web) 2 (by decide)
  · exact (c7_resolve_nonpending_is_noop fixtureQueue 0).2 .approved (some .web) 2
      (fixtureQueue.resolve 0 .approved (some .web) 2).2.1
      (fixtureQueue.resolve 0 .approved (some .web) 2).2.2
      (by decide) .denied (some .cli) 3

/-- Fixture for the filesystem supersession scenario of the spec (S3):
metadata carrying `targetFile src/foo.ts`. -/
def fooMeta : Option Metadata := some { targetFile := some "src/foo.ts" }

/-- Queue state after two filesystem requests for the same targetFile on a
fresh queue (first request at time 1, second at time 2). -/
def afterTwoFooRequests : QueueState :=
  ((QueueState.empty.request .filesystem "Write foo.ts" "first write" none fooMeta 1).2.1.request
    .filesystem "Write foo.ts" "second write" none fooMeta 2).2.1

/-- Events emitted by the second of the two filesystem requests. -/
def secondFooRequestEvents : List QEvent :=
  ((QueueState.empty.request .filesystem "Write foo.ts" "first write" none fooMeta 1).2.1.request
    .filesystem "Write foo.ts" "second write" none fooMeta 2).2.2

/-- C1 (failing-input evaluation).  `request` performs no supersession
scan: after two filesystem requests with the same `metadata.targetFile`,
both requests are still pending, both waiters are still registered, the
first request was never transitioned to denied/auto, and the second
submission signalled no waiter.  This contradicts the claimed behavior
(first request denied with resolvedBy auto and its waiter signalled with
false), which the repository's own tests and docs also describe. -/
theorem c1_no_supersession_in_request :
    afterTwoFooRequests.pendingReqs.length = 2
    ∧ afterTwoFooRequests.requests.map (fun r => (r.id, r.status)) =
        [(0, .pending), (1, .pending)]
    ∧ afterTwoFooRequests.waiters = [0, 1]
    ∧ secondFooRequestEvents.all
        (fun e => match e with | .waiterSignal _ _ => false | _ => true) = true := by
  refine ⟨by decide, by decide, by decide, by decide⟩

/-- Request record of the C4 scenario after resolution. -/
def c4Resolved : PermissionRequest :=
  { id := 0, category := .network, action := "GET http://example.com", description := "t",
    reason := none, status := .approved, metadata := none, createdAt := 1,
    resolvedAt := some 7, resolvedBy := some .web }

/-- Result of resolving the fixture request as approved by web at time 7. -/
def c4Result : Bool × QueueState × List QEvent :=
  fixtureQueue.resolve 0 .approved (some .web) 7

/-- C4 (failing-input evaluation).  A successful resolve sets status,
resolvedAt and resolvedBy, emits the resolve event, signals and removes
the waiter — but its effect trace contains no audit append: the source's
`resolve` never invokes `appendAudit`, contradicting the claim (and the
repository's docs and e2e test, which state every resolution fires a
fire-and-forget audit append). -/
theorem c4_resolve_emits_no_audit_append :
    c4Result.1 = true
    ∧ c4Result.2.1.requests = [c4Resolved]
    ∧ c4Result.2.1.waiters = []
    ∧ c4Result.2.2 = [.resolveEvent c4Resolved, .waiterSignal 0 true]
    ∧ c4Result.2.2.all
        (fun e => match e with | .auditAppend _ => false | _ => true) = true := by
  refine ⟨by decide, by decide, by decide, by decide, by decide⟩

/-! Graceful shutdown (src/server.ts).  The shutdown handler stops the
live-sync watcher, awaits fullSync, denies every pending request with
resolvedBy auto, broadcasts a shutdown message and exits; the observable
steps are recorded as a list of server actions in order. -/

/-- Observable steps of the server's shutdown sequence. -/
inductive ServerAction where
  | stopWatcher
  | fullSyncAwaited
  | queueEvent (e : QEvent)
  | broadcastShutdown (reason : String)
  | processExit
deriving DecidableEq, Repr

/-- The shutdown loop over a snapshot of pending ids: deny each with
resolvedBy auto, threading the queue state and concatenating traces. -/
def denyList (s : QueueState) (ids : List Nat) (now : Nat) : QueueState × List QEvent :=
  match ids with
  | [] => (s, [])
  | i :: rest =>
    let step := s.resolve i .denied (some .auto) now
    let next := denyList step.2.1 rest now
    (next.1, step.2.2 ++ next.2)

/-- Embedding of `gracefulShutdown` (src/server.ts): stop the watcher,
await fullSync, deny the pending snapshot, broadcast, exit. -/
def gracefulShutdown (s : QueueState) (reason : String) (now : Nat) :
    QueueState × List ServerAction :=
  let denied := denyList s (s.pendingReqs.map (fun r => r.id)) now
  (denied.1,
   [.stopWatcher, .fullSyncAwaited]
     ++ denied.2.map ServerAction.queueEvent
     ++ [.broadcastShutdown reason, .processExit])

lemma nodup_id_eq {l : List PermissionRequest}
    (hnodup : (l.map (fun r => r.id)).Nodup) {a b : PermissionRequest}
    (ha : a ∈ l) (hb : b ∈ l) (hab : a.id = b.id) : a = b := by
  induction l with
  | nil => simp at ha
  | cons x xs ih =>
    simp only [List.map_cons, List.nodup_cons] at hnodup
    rcases List.mem_cons.mp ha with rfl | ha'
    · rcases List.mem_cons.mp hb with rfl | hb'
      · rfl
      · exact absurd (hab ▸ List.mem_map_of_mem (fun r => r.id) hb') hnodup.1
    · rcases List.mem_cons.mp hb with rfl | hb'
      · exact absurd (hab ▸ List.mem_map_of_mem (fun r => r.id) ha') hnodup.1
      · exact ih hnodup.2 ha' hb'

lemma resolve_requests_ids (s : QueueState) (i : Nat) (d : Decision)
    (rb : Option ResolvedBy) (now : Nat) :
    ((s.resolve i d rb now).2.1).requests.map (fun r => r.id) =
      s.requests.map (fun r => r.id) := by
  unfold QueueState.resolve
  cases hf : s.requests.find? (fun r => r.id == i) with
  | none => rfl
  | some req =>
    by_cases hp : req.status = .pending
    · have hreqid : (req.id == i) = true := (List.find?_eq_some.mp hf).1
      have hmapid : ∀ l : List PermissionRequest,
          (l.map (fun r => if r.id == i then
              { req with status := statusOfDecision d, resolvedAt := some now, resolvedBy := rb }
            else r)).map (fun r => r.id) = l.map (fun r => r.id) := by
        intro l
        rw [List.map_map]
        apply List.map_congr_left
        intro r _
        by_cases hr : (r.id == i) = true
        · have h1 : r.id = i := by simpa using hr
          have h2 : req.id = i := by simpa using hreqid
          simp [hr, h1, h2]
        · have hr' : ¬ r.id = i := by simpa using hr
          simp [hr']
      by_cases hw : s.waiters.contains i = true
      · simp only [hp, ne_eq, not_true_eq_false, if_false, if_pos hw]
        exact hmapid s.requests
      · simp only [hp, ne_eq, not_true_eq_false, if_false, if_neg hw]
        exact hmapid s.requests
    · simp [hp]

lemma resolve_waiters_subset (s : QueueState) (i : Nat) (d : Decision)
    (rb : Option ResolvedBy) (now : Nat) (w : Nat)
    (hw : w ∈ ((s.resolve i d rb now).2.1).waiters) : w ∈ s.waiters := by
  unfold QueueState.resolve at hw
  cases hf : s.requests.find? (fun r => r.id == i) with
  | none => rw [hf] at hw; exact hw
  | some req =>
    rw [hf] at hw
    by_cases hp : req.status = .pending
    · simp only [hp, ne_eq, not_true_eq_false, if_false] at hw
      by_cases hcw : s.waiters.contains i = true
      · rw [if_pos hcw] at hw
        exact (List.mem_filter.mp hw).1
      · rw [if_neg hcw] at hw
        exact hw
    · simp [hp] at hw
      exact hw

lemma resolve_other_waiter (s : QueueState) (i : Nat) (d : Decision)
    (rb : Option ResolvedBy) (now : Nat) (w : Nat)
    (hw : w ∈ s.waiters) (hne : w ≠ i) :
    w ∈ ((s.resolve i d rb now).2.1).waiters := by
  unfold QueueState.resolve
  cases hf : s.requests.find? (fun r => r.id == i) with
  | none => exact hw
  | some req =>
    by_cases hp : req.status = .pending
    · simp only [hp, ne_eq, not_true_eq_false, if_false]
      by_cases hcw : s.waiters.contains i = true
      · rw [if_pos hcw]
        exact List.mem_filter.mpr ⟨hw, by simpa using hne⟩
      · rw [if_neg hcw]
        exact hw
    · simp [hp]
      exact hw

lemma resolve_nonpending_mem (s : QueueState) (i : Nat) (d : Decision)
    (rb : Option ResolvedBy) (now : Nat)
    (hnodup : (s.requests.map (fun r => r.id)).Nodup)
    (r : PermissionRequest) (hr : r ∈ s.requests) (hnp : r.status ≠ .pending) :
    r ∈ ((s.resolve i d rb now).2.1).requests := by
  unfold QueueState.resolve
  cases hf : s.requests.find? (fun r => r.id == i) with
  | none => exact hr
  | some req =>
    by_cases hp : req.status = .pending
    · have hreqmem := List.mem_of_find?_eq_some hf
      have hreqid : req.id = i := by simpa using (List.find?_eq_some.mp hf).1
      have hfr : (fun x : PermissionRequest => if x.id == i then
          { req with status := statusOfDecision d, resolvedAt := some now, resolvedBy := rb }
          else x) r = r := by
        by_cases hri : (r.id == i) = true
        · have hrid : r.id = i := by simpa using hri
          have heq : req = r := nodup_id_eq hnodup hreqmem hr (by rw [hreqid, hrid])
          exact absurd (heq ▸ hp) hnp
        · simp only [hri, Bool.false_eq_true, if_false]
      have hmem := List.mem_map_of_mem (fun x : PermissionRequest => if x.id == i then
          { req with status := statusOfDecision d, resolvedAt := some now, resolvedBy := rb }
          else x) hr
      rw [hfr] at hmem
      by_cases hcw : s.waiters.contains i = true
      · simp only [hp, ne_eq, not_true_eq_false, if_false, if_pos hcw]
        exact hmem
      · simp only [hp, ne_eq, not_true_eq_false, if_false, if_neg hcw]
        exact hmem
    · simp only [if_pos hp]
      exact hr

lemma resolve_pending_other (s : QueueState) (i : Nat) (d : Decision)
    (rb : Option ResolvedBy) (now : Nat)
    (r : PermissionRequest) (hr : r ∈ s.requests) (hrp : r.status = .pending)
    (hne : r.id ≠ i) :
    r ∈ ((s.resolve i d rb now).2.1).requests := by
  unfold QueueState.resolve
  cases hf : s.requests.find? (fun r => r.id == i) with
  | none => exact hr
  | some req =>
    by_cases hp : req.status = .pending
    · have hfr : (fun x : PermissionRequest => if x.id == i then
          { req with status := statusOfDecision d, resolvedAt := some now, resolvedBy := rb }
          else x) r = r := by
        have hri : (r.id == i) = false := by simpa using hne
        simp only [hri, Bool.false_eq_true, if_false]
      have hmem := List.mem_map_of_mem (fun x : PermissionRequest => if x.id == i then
          { req with status := statusOfDecision d, resolvedAt := some now, resolvedBy := rb }
          else x) hr
      rw [hfr] at hmem
      by_cases hcw : s.waiters.contains i = true
      · simp only [hp, ne_eq, not_true_eq_false, if_false, if_pos hcw]
        exact hmem
      · simp only [hp, ne_eq, not_true_eq_false, if_false, if_neg hcw]
        exact hmem
    · simp only [if_pos hp]
      exact hr

lemma resolve_pending_target (s : QueueState) (i : Nat) (now : Nat)
    (hnodup : (s.requests.map (fun r => r.id)).Nodup)
    (r : PermissionRequest) (hr : r ∈ s.requests) (hrp : r.status = .pending)
    (hid : r.id = i) :
    ({ r with status := .denied, resolvedAt := some now, resolvedBy := some .auto } ∈
        ((s.resolve i .denied (some .auto) now).2.1).requests)
    ∧ (i ∈ s.waiters →
        i ∉ ((s.resolve i .denied (some .auto) now).2.1).waiters
        ∧ QEvent.waiterSignal i false ∈ (s.resolve i .denied (some .auto) now).2.2) := by
  unfold QueueState.resolve
  cases hf : s.requests.find? (fun r => r.id == i) with
  | none =>
    exfalso
    have := List.find?_eq_none.mp hf r hr
    simp [hid] at this
  | some req =>
    have hreqmem := List.mem_of_find?_eq_some hf
    have hreqid : req.id = i := by simpa using (List.find?_eq_some.mp hf).1
    have heq : req = r := nodup_id_eq hnodup hreqmem hr (by rw [hreqid, hid])
    subst heq
    have hri : (req.id == i) = true := by simpa using hreqid
    have hupd : (fun x : PermissionRequest => if x.id == i then
        { req with status := statusOfDecision .denied, resolvedAt := some now,
                   resolvedBy := some .auto }
        else x) req =
        { req with status := .denied, resolvedAt := some now, resolvedBy := some .auto } := by
      simp only [hri, if_pos hri]
      rfl
    have hmem := List.mem_map_of_mem (fun x : PermissionRequest => if x.id == i then
        { req with status := statusOfDecision .denied, resolvedAt := some now,
                   resolvedBy := some .auto }
        else x) hr
    rw [hupd] at hmem
    by_cases hcw : s.waiters.contains i = true
    · simp only [hrp, ne_eq, not_true_eq_false, if_false, if_pos hcw]
      refine ⟨hmem, fun _ => ⟨?_, ?_⟩⟩
      · intro hmemw
        have := (List.mem_filter.mp hmemw).2
        simp at this
      · simp
    · simp only [hrp, ne_eq, not_true_eq_false, if_false, if_neg hcw]
      refine ⟨hmem, fun hiw => absurd (by simpa using hiw) hcw⟩

lemma resolve_pending_shrink (s : QueueState) (i : Nat) (now : Nat)
    (hnodup : (s.requests.map (fun r => r.id)).Nodup)
    (r' : PermissionRequest)
    (hr' : r' ∈ ((s.resolve i .denied (some .auto) now).2.1).requests)
    (hp' : r'.status = .pending) :
    r' ∈ s.requests ∧ r'.id ≠ i := by
  unfold QueueState.resolve at hr'
  cases hf : s.requests.find? (fun r => r.id == i) with
  | none =>
    rw [hf] at hr'
    refine ⟨hr', fun hid => ?_⟩
    have := List.find?_eq_none.mp hf r' hr'
    simp [hid] at this
  | some req =>
    rw [hf] at hr'
    by_cases hp : req.status = .pending
    · simp only [hp, ne_eq, not_true_eq_false, if_false] at hr'
      have hmem : r' ∈ s.requests.map (fun x : PermissionRequest => if x.id == i then
          { req with status := statusOfDecision .denied, resolvedAt := some now,
                     resolvedBy := some .auto }
          else x) := by
        by_cases hcw : s.waiters.contains i = true
        · rw [if_pos hcw] at hr'; exact hr'
        · rw [if_neg hcw] at hr'; exact hr'
      obtain ⟨r, hrmem, hfr⟩ := List.mem_map.mp hmem
      by_cases hri : (r.id == i) = true
      · rw [if_pos hri] at hfr
        rw [← hfr] at hp'
        simp [statusOfDecision] at hp'
      · rw [if_neg hri] at hfr
        subst hfr
        exact ⟨hrmem, by simpa using hri⟩
    · simp only [if_pos hp] at hr'
      refine ⟨hr', fun hid => ?_⟩
      have hreqmem := List.mem_of_find?_eq_some hf
      have hreqid : req.id = i := by simpa using (List.find?_eq_some.mp hf).1
      have heq : req = r' := nodup_id_eq hnodup hreqmem hr' (by rw [hreqid, hid])
      exact hp (by rw [heq]; exact hp')

lemma denyList_cons (s : QueueState) (i : Nat) (rest : List Nat) (now : Nat) :
    denyList s (i :: rest) now =
      ((denyList ((s.resolve i .denied (some .auto) now).2.1) rest now).1,
       (s.resolve i .denied (some .auto) now).2.2
         ++ (denyList ((s.resolve i .denied (some .auto) now).2.1) rest now).2) := rfl

lemma denyList_requests_ids (ids : List Nat) : ∀ (s : QueueState) (now : Nat),
    ((denyList s ids now).1.requests.map (fun r => r.id)) =
      s.requests.map (fun r => r.id) := by
  induction ids with
  | nil => intro s now; rfl
  | cons i rest ih =>
    intro s now
    rw [denyList_cons]
    exact (ih _ now).trans (resolve_requests_ids s i .denied (some .auto) now)

lemma denyList_nonpending_mem (ids : List Nat) : ∀ (s : QueueState) (now : Nat),
    (s.requests.map (fun r => r.id)).Nodup →
    ∀ r ∈ s.requests, r.status ≠ .pending →
    r ∈ (denyList s ids now).1.requests := by
  induction ids with
  | nil => intro s now _ r hr _; exact hr
  | cons i rest ih =>
    intro s now hnodup r hr hnp
    rw [denyList_cons]
    have h1 := resolve_nonpending_mem s i .denied (some .auto) now hnodup r hr hnp
    have hnodup1 : (((s.resolve i .denied (some .auto) now).2.1).requests.map
        (fun r => r.id)).Nodup := by
      rw [resolve_requests_ids]; exact hnodup
    exact ih _ now hnodup1 r h1 hnp

lemma denyList_waiters_subset (ids : List Nat) : ∀ (s : QueueState) (now : Nat) (w : Nat),
    w ∈ (denyList s ids now).1.waiters → w ∈ s.waiters := by
  induction ids with
  | nil => intro s now w hw; exact hw
  | cons i rest ih =>
    intro s now w hw
    rw [denyList_cons] at hw
    exact resolve_waiters_subset s i .denied (some .auto) now w (ih _ now w hw)

lemma denyList_spec (ids : List Nat) : ∀ (s : QueueState) (now : Nat),
    (s.requests.map (fun r => r.id)).Nodup →
    (∀ r ∈ s.requests, r.status = .pending → r.id ∈ ids) →
    (∀ r' ∈ (denyList s ids now).1.requests, r'.status ≠ .pending)
    ∧ (∀ r ∈ s.requests, r.status = .pending →
        { r with status := .denied, resolvedAt := some now, resolvedBy := some .auto } ∈
          (denyList s ids now).1.requests)
    ∧ (∀ w ∈ s.waiters, (∃ r ∈ s.requests, r.id = w ∧ r.status = .pending) →
        w ∉ (denyList s ids now).1.waiters
        ∧ QEvent.waiterSignal w false ∈ (denyList s ids now).2) := by
  induction ids with
  | nil =>
    intro s now _ hpend
    refine ⟨?_, ?_, ?_⟩
    · intro r' hr' hp'
      simpa using hpend r' hr' hp'
    · intro r hr hp
      simpa using hpend r hr hp
    · rintro w _ ⟨r, hr, _, hp⟩
      simpa using hpend r hr hp
  | cons i rest ih =>
    intro s now hnodup hpend
    have hnodup1 : (((s.resolve i .denied (some .auto) now).2.1).requests.map
        (fun r => r.id)).Nodup := by
      rw [resolve_requests_ids]; exact hnodup
    have hpend1 : ∀ r' ∈ ((s.resolve i .denied (some .auto) now).2.1).requests,
        r'.status = .pending → r'.id ∈ rest := by
      intro r' hr' hp'
      obtain ⟨hmem, hne⟩ := resolve_pending_shrink s i now hnodup r' hr' hp'
      rcases List.mem_cons.mp (hpend r' hmem hp') with h | h
      · exact absurd h hne
      · exact h
    obtain ⟨ih1, ih2, ih3⟩ := ih _ now hnodup1 hpend1
    refine ⟨?_, ?_, ?_⟩
    · intro r' hr' hp'
      rw [denyList_cons] at hr'
      exact ih1 r' hr' hp'
    · intro r hr hp
      rw [denyList_cons]
      by_cases hid : r.id = i
      · have h1 := (resolve_pending_target s i now hnodup r hr hp hid).1
        exact denyList_nonpending_mem rest _ now hnodup1 _ h1 (by simp)
      · have h1 := resolve_pending_other s i .denied (some .auto) now r hr hp hid
        exact ih2 r h1 hp
    · rintro w hw ⟨r, hr, hrid, hrp⟩
      by_cases hwi : w = i
      · subst hwi
        have htarget := (resolve_pending_target s w now hnodup r hr hrp hrid).2 hw
        constructor
        · intro hmemfinal
          rw [denyList_cons] at hmemfinal
          exact htarget.1 (denyList_waiters_subset rest _ now w hmemfinal)
        · rw [denyList_cons]
          exact List.mem_append_left _ htarget.2
      · have hw1 := resolve_other_waiter s i .denied (some .auto) now w hw hwi
        have hr1 := resolve_pending_other s i .denied (some .auto) now r hr hrp
          (by rw [hrid]; exact hwi)
        have := ih3 w hw1 ⟨r, hr1, hrid, hrp⟩
        constructor
        · intro hmemfinal
          rw [denyList_cons] at hmemfinal
          exact this.1 hmemfinal
        · rw [denyList_cons]
          exact List.mem_append_right _ this.2

/-- C6.  Graceful shutdown performs, in order: stop the live-sync watcher,
await fullSync, deny the pending snapshot (each with resolvedBy auto, its
waiter signalled with false), broadcast the shutdown reason, exit.  In the
resulting state no request is pending, every originally pending request
has its denied/auto record, every waiter backed by a pending request has
been signalled with false and removed, and when every waiter is backed by
a pending request (which `request` guarantees by construction) the waiter
map is empty on exit. -/
theorem c6_gracefulShutdown_denies_all_pending (s : QueueState) (reason : String)
    (now : Nat) (hnodup : (s.requests.map (fun r => r.id)).Nodup) :
    (gracefulShutdown s reason now).2 =
      [ServerAction.stopWatcher, ServerAction.fullSyncAwaited]
        ++ ((denyList s (s.pendingReqs.map (fun r => r.id)) now).2.map ServerAction.queueEvent)
        ++ [ServerAction.broadcastShutdown reason, ServerAction.processExit]
    ∧ (∀ r' ∈ (gracefulShutdown s reason now).1.requests, r'.status ≠ .pending)
    ∧ (∀ r ∈ s.requests, r.status = .pending →
        { r with status := .denied, resolvedAt := some now, resolvedBy := some .auto } ∈
          (gracefulShutdown s reason now).1.requests)
    ∧ (∀ w ∈ s.waiters, (∃ r ∈ s.requests, r.id = w ∧ r.status = .pending) →
        w ∉ (gracefulShutdown s reason now).1.waiters
        ∧ ServerAction.queueEvent (QEvent.waiterSignal w false) ∈
            (gracefulShutdown s reason now).2)
    ∧ ((∀ w ∈ s.waiters, ∃ r ∈ s.requests, r.id = w ∧ r.status = .pending) →
        (gracefulShutdown s reason now).1.waiters = []) := by
  have hpend : ∀ r ∈ s.requests, r.status = .pending →
      r.id ∈ s.pendingReqs.map (fun r => r.id) := by
    intro r hr hp
    exact List.mem_map_of_mem _ (List.mem_filter.mpr ⟨hr, by simp [QueueState.pendingReqs, hp]⟩)
  obtain ⟨h1, h2, h3⟩ := denyList_spec _ s now hnodup hpend
  have hstate : (gracefulShutdown s reason now).1 =
      (denyList s (s.pendingReqs.map (fun r => r.id)) now).1 := rfl
  refine ⟨rfl, ?_, ?_, ?_, ?_⟩
  · rw [hstate]; exact h1
  · intro r hr hp
    rw [hstate]; exact h2 r hr hp
  · intro w hw hex
    obtain ⟨hnot, hsig⟩ := h3 w hw hex
    refine ⟨by rw [hstate]; exact hnot, ?_⟩
    have hmapped : ServerAction.queueEvent (QEvent.waiterSignal w false) ∈
        (denyList s (s.pendingReqs.map (fun r => r.id)) now).2.map ServerAction.queueEvent :=
      List.mem_map_of_mem _ hsig
    show ServerAction.queueEvent (QEvent.waiterSignal w false) ∈
      [ServerAction.stopWatcher, ServerAction.fullSyncAwaited]
        ++ ((denyList s (s.pendingReqs.map (fun r => r.id)) now).2.map ServerAction.queueEvent)
        ++ [ServerAction.broadcastShutdown reason, ServerAction.processExit]
    simp only [List.mem_append]
    exact Or.inl (Or.inr hmapped)
  · intro hall
    rw [hstate, List.eq_nil_iff_forall_not_mem]
    intro w hwfinal
    have hws := denyList_waiters_subset _ s now w hwfinal
    exact (h3 w hws (hall w hws)).1 hwfinal

/-- Witness for C6 on the one-pending-request fixture. -/
theorem c6_gracefulShutdown_denies_all_pending_witness :
    (gracefulShutdown fixtureQueue "SIGTERM" 9).1.waiters = []
    ∧ { fixtureReq with status := .denied, resolvedAt := some 9, resolvedBy := some .auto } ∈
        (gracefulShutdown fixtureQueue "SIGTERM" 9).1.requests
    ∧ ServerAction.queueEvent (QEvent.waiterSignal 0 false) ∈
        (gracefulShutdown fixtureQueue "SIGTERM" 9).2 := by
  have h := c6_gracefulShutdown_denies_all_pending fixtureQueue "SIGTERM" 9 (by decide)
  refine ⟨h.2.2.2.2 (by decide), h.2.2.1 fixtureReq (by decide) (by decide), ?_⟩
  exact (h.2.2.2.1 0 (by decide) (by decide)).2

/-! Config store (src/config.ts).  `applyConfigChange` walks arbitrary
dot-separated paths through the in-memory config object, so the config is
modelled as a dynamic JSON-like value; mode values are the literal strings
the TypeScript code compares against. -/

/-- A dynamic JavaScript value (the shape of the parsed config JSON). -/
inductive JSValue where
  | str (s : String)
  | num (n : Int)
  | boolean (b : Bool)
  | arr (elems : List JSValue)
  | obj (fields : List (String × JSValue))
deriving Repr

/-- Property lookup in an object's field list (first binding wins, as in a
JavaScript object literal with distinct keys). -/
def lookupField : List (String × JSValue) → String → Option JSValue
  | [], _ => none
  | (k, v) :: rest, key => if k = key then some v else lookupField rest key

/-- Property assignment in an object's field list: replace the first
binding of the key, or append a new binding. -/
def setFieldIn : List (String × JSValue) → String → JSValue → List (String × JSValue)
  | [], key, v => [(key, v)]
  | (k, w) :: rest, key, v =>
    if k = key then (k, v) :: rest else (k, w) :: setFieldIn rest key v

/-- Property access `target[key]`: undefined (`none`) on non-objects. -/
def JSValue.getField : JSValue → String → Option JSValue
  | .obj fields, key => lookupField fields key
  | _, _ => none

/-- Split a path on dots, as `path.split(".")` does (empty segments kept). -/
def splitDotsAux : List Char → List Char → List String
  | [], acc => [String.mk acc.reverse]
  | c :: cs, acc =>
    if c = '.' then String.mk acc.reverse :: splitDotsAux cs []
    else splitDotsAux cs (c :: acc)

/-- Dot-split of a config-change path. -/
def splitDots (s : String) : List String := splitDotsAux s.toList []

/-- Walk-and-assign of `applyConfigChange` (src/config.ts) over a path
segment list: step through every segment but the last, failing (`none`)
when a step is undefined, then assign the value at the last key.  The
in-place mutation of the walked object becomes a functional rebuild of
the spine.  Assignment with a non-object final target (which would throw
in the strict-mode source) is modelled as failure; all paths the server
applies end in an object. -/
def applyConfigPath : JSValue → List String → JSValue → Option JSValue
  | c, [key], v =>
    match c with
    | .obj fields => some (.obj (setFieldIn fields key v))
    | _ => none
  | c, key :: rest, v =>
    match c.getField key with
    | none => none
    | some sub =>
      match applyConfigPath sub rest v with
      | none => none
      | some sub' =>
        match c with
        | .obj fields => some (.obj (setFieldIn fields key sub'))
        | _ => none
  | _, [], _ => none

/-- Embedding of `applyConfigChange` (src/config.ts): returns whether the
walk succeeded, together with the (possibly updated) config. -/
def applyConfigChange (c : JSValue) (path : String) (value : JSValue) : Bool × JSValue :=
  match applyConfigPath c (splitDots path) value with
  | none => (false, c)
  | some c' => (true, c')

/-- Key of a category in the config's `categories` object. -/
def categoryName : Category → String
  | .network => "network"
  | .filesystem => "filesystem"
  | .git => "git"
  | .packages => "packages"
  | .sandbox => "sandbox"
  | .exec => "exec"

/-- The raw persisted `categories.<cat>.mode` value, with no hardening. -/
def storedCategoryMode (c : JSValue) (category : Category) : Option JSValue :=
  ((c.getField "categories").bind (fun cats => cats.getField (categoryName category))).bind
    (fun cc => cc.getField "mode")

/-- Embedding of `getCategoryMode` (src/config.ts): exec and packages are
always approve-each regardless of the stored value; otherwise the stored
mode string with approve-each as the default for a missing entry. -/
def getCategoryMode (c : JSValue) (category : Category) : String :=
  if category = .exec ∨ category = .packages then "approve-each"
  else
    match storedCategoryMode c category with
    | some (.str m) => m
    | _ => "approve-each"

/-- Embedding of `setCategoryMode` (src/config.ts): a non-approve-each
mode for exec or packages is silently discarded; otherwise
`categories[category] = \x7b mode \x7d`. -/
def setCategoryMode (c : JSValue) (category : Category) (mode : String) : JSValue :=
  if (category = .exec ∨ category = .packages) ∧ mode ≠ "approve-each" then c
  else
    match c with
    | .obj fields =>
      match lookupField fields "categories" with
      | some (.obj cats) =>
        .obj (setFieldIn fields "categories"
          (.obj (setFieldIn cats (categoryName category) (.obj [("mode", .str mode)]))))
      | _ => c
    | _ => c

/-- Embedding of `getRules` (src/config.ts): the rules object's allow and
deny string arrays, empty when absent (`current.rules || empty`). -/
def jsStringList : Option JSValue → List String
  | some (.arr es) => es.filterMap (fun e => match e with | .str s => some s | _ => none)
  | _ => []

/-- RuleSet read from the config value. -/
def getRules (c : JSValue) : RuleSet :=
  match c.getField "rules" with
  | some r => { allow := jsStringList (r.getField "allow"), deny := jsStringList (r.getField "deny") }
  | none => { allow := [], deny := [] }

/-- Embedding of `isEndpointAllowed` (src/config.ts): the host equals an
allowed entry or ends with dot-entry. -/
def isEndpointAllowed (c : JSValue) (host : String) : Bool :=
  match c.getField "allowedEndpoints" with
  | some (.arr es) => es.any (fun e => match e with
      | .str allowed => host = allowed || (("." ++ allowed).toList.isSuffixOf host.toList)
      | _ => false)
  | _ => false

/-- The default sandbox config (src/types.ts DEFAULT_CONFIG, with the
rules field that loadConfig patches in) as a dynamic value. -/
def defaultConfigVal : JSValue :=
  .obj [("allowedEndpoints", .arr [.str "api.anthropic.com"]),
        ("gitStagingRepo", .str "/data/git-staging.git"),
        ("categories", .obj
          [("network", .obj [("mode", .str "approve-each")]),
           ("filesystem", .obj [("mode", .str "approve-each")]),
           ("git", .obj [("mode", .str "approve-each")]),
           ("packages", .obj [("mode", .str "approve-each")]),
           ("sandbox", .obj [("mode", .str "approve-each")]),
           ("exec", .obj [("mode", .str "approve-each")])]),
        ("rules", .obj [("allow", .arr []), ("deny", .arr [])])]

/-- C3 (counterexample).  An approved config-change proposal targeting
`categories.exec.mode` is NOT discarded: `applyConfigChange` walks the
path and assigns, so it returns true and the stored mode becomes
allow-all — the stored mode does change, refuting the claim that every
such write is silently discarded.  (The read side still reports
approve-each; see the amended theorem.) -/
theorem c3_applyConfigChange_mutates_hardened_mode :
    (applyConfigChange defaultConfigVal "categories.exec.mode" (.str "allow-all")).1 = true
    ∧ storedCategoryMode defaultConfigVal .exec = some (.str "approve-each")
    ∧ storedCategoryMode
        (applyConfigChange defaultConfigVal "categories.exec.mode" (.str "allow-all")).2 .exec =
        some (.str "allow-all")
    ∧ storedCategoryMode
        (applyConfigChange defaultConfigVal "categories.exec.mode" (.str "allow-all")).2 .exec ≠
        storedCategoryMode defaultConfigVal .exec := by
  refine ⟨rfl, rfl, rfl, ?_⟩
  intro h
  rw [show storedCategoryMode
      (applyConfigChange defaultConfigVal "categories.exec.mode" (.str "allow-all")).2 .exec =
      some (.str "allow-all") from rfl,
    show storedCategoryMode defaultConfigVal .exec = some (.str "approve-each") from rfl] at h
  injection h with h1
  injection h1 with h2
  exact absurd h2 (by decide)

/-- C3 (amended).  For the hardened categories exec and packages,
`getCategoryMode` always returns approve-each regardless of the stored
value, and `setCategoryMode` silently discards any other mode; but an
approved `applyConfigChange` proposal targeting categories.exec.mode or
categories.packages.mode does write the stored value — the hardening then
holds only at the read side, which still reports approve-each. -/
theorem c3_hardened_categories_read_and_set (c : JSValue) (m : String)
    (hm : m ≠ "approve-each") :
    getCategoryMode c .exec = "approve-each"
    ∧ getCategoryMode c .packages = "approve-each"
    ∧ setCategoryMode c .exec m = c
    ∧ setCategoryMode c .packages m = c
    ∧ getCategoryMode
        (applyConfigChange defaultConfigVal "categories.exec.mode" (.str "allow-all")).2 .exec =
        "approve-each" := by
  refine ⟨?_, ?_, ?_, ?_, rfl⟩
  · simp [getCategoryMode]
  · simp [getCategoryMode]
  · simp [setCategoryMode, hm]
  · simp [setCategoryMode, hm]

/-- Witness for C3's amended theorem at mode allow-all. -/
theorem c3_hardened_categories_read_and_set_witness :
    getCategoryMode defaultConfigVal .exec = "approve-each"
    ∧ getCategoryMode defaultConfigVal .packages = "approve-each"
    ∧ setCategoryMode defaultConfigVal .exec "allow-all" = defaultConfigVal
    ∧ setCategoryMode defaultConfigVal .packages "allow-all" = defaultConfigVal
    ∧ getCategoryMode
        (applyConfigChange defaultConfigVal "categories.exec.mode" (.str "allow-all")).2 .exec =
        "approve-each" :=
  c3_hardened_categories_read_and_set defaultConfigVal "allow-all" (by decide)

/-! Network proxy (src/proxy.ts) and git sync (src/git-sync.ts) decision
pipelines. -/

/-- Outcome of the proxy's policy decision for one request. -/
inductive ProxyDecision where
  | ok200
  | blocked403
  | queueNetwork (action : String)
deriving DecidableEq, Repr

/-- Embedding of the `handleConnect` decision pipeline (src/proxy.ts):
allowlist, then category mode (allow-all proceeds, deny-all blocks,
anything else queues a network request and blocks on the waiter). -/
def handleConnectDecision (c : JSValue) (targetHost : String) (targetPort : Nat) :
    ProxyDecision :=
  if isEndpointAllowed c targetHost then .ok200
  else
    let mode := getCategoryMode c .network
    if mode = "allow-all" then .ok200
    else if mode = "deny-all" then .blocked403
    else .queueNetwork ("CONNECT " ++ targetHost ++ ":" ++ toString targetPort)

/-- Embedding of the `handleHttp` decision pipeline (src/proxy.ts). -/
def handleHttpDecision (c : JSValue) (targetHost method originPath : String) :
    ProxyDecision :=
  if isEndpointAllowed c targetHost then .ok200
  else
    let mode := getCategoryMode c .network
    if mode = "allow-all" then .ok200
    else if mode = "deny-all" then .blocked403
    else .queueNetwork (method ++ " " ++ originPath)

/-- Outcome of `requestGitSync` (src/git-sync.ts). -/
inductive GitSyncDecision where
  | deniedByMode
  | syncNow
  | queueGit (action : String)
deriving DecidableEq, Repr

/-- Embedding of the `requestGitSync` decision pipeline (src/git-sync.ts):
deny-all returns false, allow-all pushes at once, anything else queues a
git request and pushes only on approval. -/
def requestGitSyncDecision (c : JSValue) (branch : String) : GitSyncDecision :=
  let mode := getCategoryMode c .git
  if mode = "deny-all" then .deniedByMode
  else if mode = "allow-all" then .syncNow
  else .queueGit ("push " ++ branch)

/-- Config fixture for C2: nothing allowlisted, network and git in
allow-all mode, deny rules for network(evil.com) and git(main). -/
def c2DenyRuleConfig : JSValue :=
  .obj [("allowedEndpoints", .arr []),
        ("gitStagingRepo", .str "/data/git-staging.git"),
        ("categories", .obj
          [("network", .obj [("mode", .str "allow-all")]),
           ("git", .obj [("mode", .str "allow-all")])]),
        ("rules", .obj [("allow", .arr []),
                        ("deny", .arr [.str "network(evil.com)", .str "git(main)"])])]

/-- Config fixture for C2: approve-each modes with an allow rule for
network(good.com). -/
def c2AllowRuleConfig : JSValue :=
  .obj [("allowedEndpoints", .arr []),
        ("gitStagingRepo", .str "/data/git-staging.git"),
        ("categories", .obj
          [("network", .obj [("mode", .str "approve-each")]),
           ("git", .obj [("mode", .str "approve-each")])]),
        ("rules", .obj [("allow", .arr [.str "network(good.com)"]),
                        ("deny", .arr [])])]

/-- C2 (failing-input evaluation).  Neither the proxy handlers nor
`requestGitSync` ever consult the rules engine: with a deny rule for
network(evil.com) and git(main) in force, the rules verdict is deny, yet
the proxy proceeds with 200 under allow-all mode and the git sync pushes;
with an allow rule for network(good.com) under approve-each mode, the
verdict is allow, yet the proxy still queues a request.  This contradicts
the claimed rules-before-mode pipeline (which the repository's own
architecture doc describes for both modules). -/
theorem c2_proxy_and_git_ignore_rules :
    evaluateRules (fun _ _ => false) (getRules c2DenyRuleConfig) .network "evil.com" =
      some .deny
    ∧ handleConnectDecision c2DenyRuleConfig "evil.com" 443 = .ok200
    ∧ handleHttpDecision c2DenyRuleConfig "evil.com" "GET" "http://evil.com/x" = .ok200
    ∧ evaluateRules (fun _ _ => false) (getRules c2DenyRuleConfig) .git "main" = some .deny
    ∧ requestGitSyncDecision c2DenyRuleConfig "main" = .syncNow
    ∧ evaluateRules (fun _ _ => false) (getRules c2AllowRuleConfig) .network "good.com" =
        some .allow
    ∧ handleConnectDecision c2AllowRuleConfig "good.com" 443 =
        .queueNetwork "CONNECT good.com:443" := by
  refine ⟨by decide, by decide, by decide, by decide, by decide, by decide, by decide⟩

end Fishbowl
